import Mathlib

/-!
Shallow embedding of the crate-docs documentation browser
(`src/content.rs` and `src/main.rs`).

The embedding translates the pure algorithmic core:
- the kind-classification and listing-extraction loop (`gen_doc_listings`),
- the URL resolution branch (the `url` crate's parse/join behaviour is
  modelled from the spec, since that library is external to the repository),
- the page-source outcome classification (`fetch_live_html`, `fetch_html`),
  with the filesystem and network abstracted as explicit outcome data,
- the flat search index and the two-pass search (`DocState`,
  `search_doc_listings`).

Rust string primitives used by the source (`split(" ")`, `starts_with`,
`ends_with`, `replace`) are re-implemented structurally over `List Char`
with the exact semantics of the Rust standard library, so that concrete
instances evaluate inside the kernel.
-/

/-- Rust `str::split(" ")`: split on every single-space occurrence; the empty
string yields `[""]`, adjacent separators yield empty pieces. Structural
re-implementation over `List Char`. -/
def splitSpaceL : List Char → List (List Char)
  | [] => [[]]
  | c :: cs =>
    match splitSpaceL cs with
    | [] => [[]]
    | w :: ws => if c = ' ' then [] :: w :: ws else (c :: w) :: ws

/-- Rust `str::split(" ").collect::<Vec<_>>()` on a `String`. -/
def splitSpace (s : String) : List String :=
  (splitSpaceL s.data).map String.mk

/-- Rust `str::starts_with` on character lists. -/
def listStartsWith : List Char → List Char → Bool
  | _, [] => true
  | [], _ :: _ => false
  | a :: as, b :: bs => a == b && listStartsWith as bs

/-- Rust `str::starts_with` on `String`. -/
def strStartsWith (s p : String) : Bool :=
  listStartsWith s.data p.data

/-- Rust `str::ends_with` on `String`: the reversed string starts with the
reversed pattern. -/
def strEndsWith (s p : String) : Bool :=
  listStartsWith s.data.reverse p.data.reverse

/-- Fuel-indexed worker for `replaceAll`; the fuel is an upper bound on the
number of characters still to be consumed, which keeps the recursion
structural. -/
def replaceAllAux (pat rep : List Char) : Nat → List Char → List Char
  | 0, s => s
  | _ + 1, [] => []
  | fuel + 1, c :: cs =>
    if pat ≠ [] ∧ listStartsWith (c :: cs) pat then
      rep ++ replaceAllAux pat rep fuel ((c :: cs).drop pat.length)
    else
      c :: replaceAllAux pat rep fuel cs

/-- Rust `str::replace`: replace every non-overlapping occurrence of `pat`
by `rep`, scanning left to right. -/
def replaceAll (s pat rep : List Char) : List Char :=
  replaceAllAux pat rep s.length s

/-- Rust `base_url.replace(pat, rep)` on `String`. -/
def strReplace (s pat rep : String) : String :=
  String.mk (replaceAll s.data pat.data rep.data)

/-! ## Model of the external `url` crate

The `url` crate is not part of this repository; its parse/join behaviour is
modelled from the spec's description: standard URL-join rules, with parse
distinguishing "no scheme" (`RelativeUrlWithoutBase`) from other failures. -/

/-- Parsed absolute URL: scheme, authority host (possibly empty for
non-authority schemes) and path. Query and fragment components play no role
in the claims and are not modelled. -/
structure Url where
  scheme : List Char
  host : List Char
  path : List Char
deriving DecidableEq, Repr

/-- Modelled from the spec: the `url` crate's parse errors, reduced to the
two classes the source distinguishes: a reference with no scheme
(`RelativeUrlWithoutBase`) and every other failure. -/
inductive UrlParseError where
  | RelativeUrlWithoutBase
  | OtherFailure
deriving DecidableEq, Repr

/-- First character of a URL scheme: a letter. -/
def isSchemeStart (c : Char) : Bool := c.isAlpha

/-- Subsequent characters of a URL scheme: letters, digits, `+`, `-`, `.`. -/
def isSchemeChar (c : Char) : Bool :=
  c.isAlpha || c.isDigit || c == '+' || c == '-' || c == '.'

/-- Scan for a leading `scheme:`; returns the scheme (reversed accumulator
restored) and the remainder after the colon, or `none` when the input has no
well-formed scheme. -/
def schemeSplitAux (acc : List Char) : List Char → Option (List Char × List Char)
  | [] => none
  | c :: cs =>
    if c = ':' then
      if acc.isEmpty then none else some (acc.reverse, cs)
    else if (if acc.isEmpty then isSchemeStart c else isSchemeChar c) then
      schemeSplitAux (c :: acc) cs
    else
      none

/-- Split a reference into scheme and scheme-specific part, when absolute. -/
def schemeSplit (s : List Char) : Option (List Char × List Char) :=
  schemeSplitAux [] s

/-- Modelled from the spec: the `url` crate's `Url::parse`. A reference with
no scheme fails with `RelativeUrlWithoutBase`; an authority form `//` with an
empty host fails with `OtherFailure`; otherwise scheme, host and path are
extracted. -/
def urlParseL (s : List Char) : Except UrlParseError Url :=
  match schemeSplit s with
  | none => .error .RelativeUrlWithoutBase
  | some (sch, rest) =>
    if listStartsWith rest ['/', '/'] then
      let rest2 := rest.drop 2
      let host := rest2.takeWhile (fun c => c ≠ '/')
      let path := rest2.dropWhile (fun c => c ≠ '/')
      if host.isEmpty then .error .OtherFailure
      else .ok ⟨sch, host, if path.isEmpty then ['/'] else path⟩
    else
      .ok ⟨sch, [], rest⟩

/-- Render a parsed URL back to its string form. -/
def urlRender (u : Url) : List Char :=
  if u.host.isEmpty then u.scheme ++ [':'] ++ u.path
  else u.scheme ++ [':', '/', '/'] ++ u.host ++ u.path

/-- Directory part of a path: everything up to and including the last `/`,
or `/` when the path has no slash. -/
def dirOf (p : List Char) : List Char :=
  let r := p.reverse.dropWhile (fun c => c ≠ '/')
  if r.isEmpty then ['/'] else r.reverse

/-- Modelled from the spec: the `url` crate's `Url::join` follows standard
URL-join rules (RFC 3986 reference resolution): an already-absolute
reference passes through, a `//` reference keeps only the base scheme, an
absolute path replaces the base path, an empty reference returns the base,
and a relative path replaces the last segment of the base path. Under these
rules resolution is total given a parsed base, which is why the source
unwraps the join result. Dot-segment normalization is not modelled (no claim
involves it). -/
def urlJoin (b : Url) (u : List Char) : List Char :=
  match schemeSplit u with
  | some _ => u
  | none =>
    if listStartsWith u ['/', '/'] then b.scheme ++ [':'] ++ u
    else if listStartsWith u ['/'] then urlRender ⟨b.scheme, b.host, u⟩
    else if u.isEmpty then urlRender b
    else urlRender ⟨b.scheme, b.host, dirOf b.path ++ u⟩

/-! ## Data model (`src/content.rs`) -/

/-- `ContentError` from `src/content.rs`. -/
inductive ContentError where
  | DoesNotExist
  | LoadFailure
  | InvalidPage
deriving DecidableEq, Repr

/-- `DocType` from `src/content.rs`. -/
inductive DocType where
  | Module
  | Struct
  | «Type»
  | Trait
  | Enum
  | Function
  | Constant
  | Other
deriving DecidableEq, Repr

/-- `DocListing` from `src/content.rs`: one documented item. -/
structure DocListing where
  name : String
  url : String
deriving DecidableEq, Repr

/-- `DocTypeListing` from `src/content.rs`: one kind-tagged group. -/
structure DocTypeListing where
  doc_type : DocType
  docs : List DocListing
deriving DecidableEq, Repr

/-- Modelled from the spec: one `<a>` node as the external `scraper` crate
presents it to the source: its concatenated text content and its optional
`href` attribute. -/
structure Anchor where
  text : String
  href : Option String
deriving DecidableEq, Repr

/-- Modelled from the spec: one `<ul>` node as the `scraper` crate presents
it: its optional `class` attribute and its anchor descendants in document
order. -/
structure UlNode where
  classAttr : Option String
  anchors : List Anchor
deriving DecidableEq, Repr

/-- Modelled from the spec: a parsed HTML document, reduced to the only
selection the source performs on it: its `<ul>` nodes in document order. -/
structure Html where
  uls : List UlNode
deriving DecidableEq, Repr

/-- `PageType` from `src/content.rs`. -/
inductive PageType where
  | All (html : Html)
  | Index (html : Html)
deriving DecidableEq, Repr

/-- The `classes` binding of `gen_doc_listings`: the class attribute split on
single spaces, or the empty vector when the attribute is absent. -/
def classesOf (c : UlNode) : List String :=
  match c.classAttr with
  | some s => splitSpace s
  | none => []

/-- The `dtype` match of `gen_doc_listings`: fixed case-sensitive table with
wildcard fallback to `Other`. A Rust match on `&str` literals is a sequence
of equality tests, embedded as an if-chain. -/
def docTypeOfClass (s : String) : DocType :=
  if s = "modules" then .Module
  else if s = "structs" then .Struct
  else if s = "typedefs" then .«Type»
  else if s = "traits" then .Trait
  else if s = "enums" then .Enum
  else if s = "functions" then .Function
  else if s = "constants" then .Constant
  else .Other

/-- The URL match of `gen_doc_listings` (lines 165-189): parse the base; on
success join (the join result is unwrapped, see `urlJoin`); on
`RelativeUrlWithoutBase` substitute `all.html` literally; on any other parse
error drop the reference (`none`). -/
def resolveUrl (base_url u : String) : Option String :=
  match urlParseL base_url.data with
  | .ok b => some (String.mk (urlJoin b u.data))
  | .error .RelativeUrlWithoutBase => some (strReplace base_url "all.html" u)
  | .error _ => none

/-- The inner anchor loop of `gen_doc_listings`: an anchor without `href` is
skipped, a dropped resolution is skipped, otherwise a `DocListing` with the
anchor text and the resolved URL is appended. -/
def collectListings (base_url : String) : List Anchor → List DocListing
  | [] => []
  | entry :: rest =>
    match entry.href with
    | none => collectListings base_url rest
    | some u =>
      match resolveUrl base_url u with
      | none => collectListings base_url rest
      | some url => { name := entry.text, url := url } :: collectListings base_url rest

/-- One iteration of the outer `<ul>` loop of `gen_doc_listings`: the guard
`classes.len() == 0 || classes[0].starts_with("pure")` skips classless
containers and menu items (its short-circuit makes the `classes[0]` access
safe, embedded as a head pattern match); otherwise classify `classes[0]`,
collect entries, and keep the group only when non-empty. -/
def processUl (base_url : String) (c : UlNode) : Option DocTypeListing :=
  match classesOf c with
  | [] => none
  | cls0 :: _ =>
    if strStartsWith cls0 "pure" then none
    else
      let dtype := docTypeOfClass cls0
      let listings := collectListings base_url c.anchors
      if listings.length > 0 then some { doc_type := dtype, docs := listings } else none

/-- The outer `<ul>` loop of `gen_doc_listings`: each iteration either skips
the container or pushes exactly one group, in container order. -/
def genAll (base_url : String) : List UlNode → List DocTypeListing
  | [] => []
  | c :: rest =>
    match processUl base_url c with
    | none => genAll base_url rest
    | some g => g :: genAll base_url rest

/-- `gen_doc_listings` from `src/content.rs`: only an `All` page yields
listings; every other page type is `InvalidPage`. -/
def gen_doc_listings (page : PageType) (base_url : String) :
    Except ContentError (List DocTypeListing) :=
  match page with
  | .All html => .ok (genAll base_url html.uls)
  | _ => .error .InvalidPage

/-! ## Search index (`src/main.rs`) -/

/-- `DocPage` from `src/content.rs`. -/
structure DocPage where
  page_type : PageType
  doc_blocks : List DocTypeListing

/-- `DocState` from `src/main.rs`. -/
structure DocState where
  page : DocPage
  available_docs : List DocListing

/-- `impl From<DocPage> for DocState` (`src/main.rs` lines 13-25): extend an
initially empty vector with each block's docs in block order. -/
def docStateFrom (page : DocPage) : DocState :=
  let listings := page.doc_blocks.foldl (fun acc block => acc ++ block.docs) []
  { page := page, available_docs := listings }

/-- One linear pass returning the first listing satisfying the predicate;
both loops of `search_doc_listings` have this shape. -/
def findFirst (p : DocListing → Bool) : List DocListing → Option DocListing
  | [] => none
  | d :: ds => if p d then some d else findFirst p ds

/-- `DocState::search_doc_listings` (`src/main.rs` lines 28-47): first an
exact-equality pass, then an `ends_with` pass, then `None`. -/
def search_doc_listings (s : DocState) (target : String) : Option DocListing :=
  match findFirst (fun doc => doc.name == target) s.available_docs with
  | some doc => some doc
  | none => findFirst (fun doc => strEndsWith doc.name target) s.available_docs

/-! ## Page source (`src/content.rs` lines 215-273)

The network and the filesystem are external; a fetch environment records the
outcome each external call would produce, and the fetch functions are
translated over it. -/

/-- Outcome of the second network request: its status code and the outcome
of reading its body (`none`: the body read failed). -/
structure Resp2 where
  status : Nat
  body : Option String
deriving DecidableEq, Repr

/-- Outcomes of the two network calls of `fetch_live_html`: `firstReq` is
the final resolved address of the first response after redirects (`none`:
transport failure), `secondReq` the second response (`none`: transport
failure). -/
structure Network where
  firstReq : Option String
  secondReq : Option Resp2
deriving DecidableEq, Repr

/-- Outcome of `File::open` followed by `read_to_string` at a path. -/
inductive FileRead where
  | openErr
  | readErr
  | ok (content : String)
deriving DecidableEq, Repr

/-- The external world of one fetch: working directory, filesystem, network,
and the `scraper` crate's infallible `Html::parse_document`. -/
structure FetchEnv where
  cwd : String
  fs : String → FileRead
  net : Network
  parseDocument : String → Html

/-- `fetch_live_html` from `src/content.rs` (lines 215-245): transport
failure on either request is `LoadFailure`; the second address is the first
response's resolved address with `all.html` appended; a second response with
status `OK` has its body read (read failure: `LoadFailure`; success: the
parsed page with that address); any other status is `DoesNotExist`. -/
def fetch_live_html (env : FetchEnv) (crate_name : String) :
    Except ContentError (PageType × String) :=
  match env.net.firstReq with
  | none => .error .LoadFailure
  | some resolved =>
    let url := resolved ++ "all.html"
    match env.net.secondReq with
    | none => .error .LoadFailure
    | some r =>
      if r.status = 200 then
        match r.body with
        | none => .error .LoadFailure
        | some b => .ok (.All (env.parseDocument b), url)
      else .error .DoesNotExist

/-- `fetch_html` from `src/content.rs` (lines 247-273): online delegates to
`fetch_live_html`; offline reads the conventional cache path, mapping an
open failure to `DoesNotExist`, a read failure to `LoadFailure`, and success
to the parsed contents paired with the path. -/
def fetch_html (env : FetchEnv) (crate_name : String) (online : Bool) :
    Except ContentError (PageType × String) :=
  if online then fetch_live_html env crate_name
  else
    let index_path := env.cwd ++ "/target/doc/" ++ crate_name ++ "/all.html"
    match env.fs index_path with
    | .openErr => .error .DoesNotExist
    | .readErr => .error .LoadFailure
    | .ok content => .ok (.All (env.parseDocument content), index_path)

/-! ## Helper lemmas -/

/-- Every character list starts with the empty pattern. -/
theorem listStartsWith_nil (l : List Char) : listStartsWith l [] = true := by
  cases l <;> rfl

/-- Rust semantics: every string ends with the empty string. -/
theorem strEndsWith_empty (s : String) : strEndsWith s "" = true :=
  listStartsWith_nil s.data.reverse

/-- `split(" ")` never yields an empty vector (the empty string yields one
empty piece). -/
theorem splitSpaceL_ne_nil (l : List Char) : splitSpaceL l ≠ [] := by
  cases l with
  | nil => simp [splitSpaceL]
  | cons c cs =>
    simp only [splitSpaceL]
    cases hsp : splitSpaceL cs with
    | nil => simp
    | cons w ws => by_cases hc : c = ' ' <;> simp [hc]

/-- `splitSpace` never yields an empty vector. -/
theorem splitSpace_ne_nil (s : String) : splitSpace s ≠ [] := by
  simp [splitSpace, splitSpaceL_ne_nil]

/-- Both loops of the search are first-match scans. -/
theorem findFirst_eq_find? (p : DocListing → Bool) (l : List DocListing) :
    findFirst p l = l.find? p := by
  induction l with
  | nil => rfl
  | cons d ds ih => simp only [findFirst, List.find?_cons, ih]; split <;> simp_all

/-- The search is the exact-match scan, falling back to the suffix scan. -/
theorem search_eq_orElse (s : DocState) (target : String) :
    search_doc_listings s target =
      (s.available_docs.find? fun d => d.name == target).orElse
        (fun _ => s.available_docs.find? fun d => strEndsWith d.name target) := by
  simp only [search_doc_listings, findFirst_eq_find?]
  cases hf : s.available_docs.find? fun d => d.name == target <;>
    simp [Option.orElse]

/-- The per-anchor outcome of the inner loop: `none` when the anchor has no
`href` or its resolution is dropped, otherwise the listing built from the
anchor text and the resolved URL. -/
def mkListing (base_url : String) (a : Anchor) : Option DocListing :=
  a.href.bind fun u => (resolveUrl base_url u).map fun url => { name := a.text, url := url }

/-- The inner loop is an order-preserving filter-map over the anchors. -/
theorem collectListings_eq_filterMap (base_url : String) (as : List Anchor) :
    collectListings base_url as = as.filterMap (mkListing base_url) := by
  induction as with
  | nil => rfl
  | cons a rest ih =>
    simp only [collectListings, List.filterMap_cons, mkListing]
    cases a.href with
    | none => simpa using ih
    | some u =>
      cases hr : resolveUrl base_url u <;> simp [hr, ih]

/-- The outer loop is an order-preserving filter-map over the containers. -/
theorem genAll_eq_filterMap (base_url : String) (uls : List UlNode) :
    genAll base_url uls = uls.filterMap (processUl base_url) := by
  induction uls with
  | nil => rfl
  | cons c rest ih =>
    simp only [genAll, List.filterMap_cons]
    cases hp : processUl base_url c <;> simp [ih]

/-- Characterization of one outer-loop iteration: a group is produced exactly
when the container has a class vector that is non-empty, whose first token
does not start with `pure`, and whose collected entries are non-empty; the
group then carries the table-classified kind and those entries. -/
theorem processUl_eq_some_iff (base_url : String) (c : UlNode) (g : DocTypeListing) :
    processUl base_url c = some g ↔
      ∃ cls0 rest, classesOf c = cls0 :: rest ∧
        strStartsWith cls0 "pure" = false ∧
        collectListings base_url c.anchors ≠ [] ∧
        g = { doc_type := docTypeOfClass cls0,
              docs := collectListings base_url c.anchors } := by
  cases hcl : classesOf c with
  | nil => simp [processUl, hcl]
  | cons cls0 rest =>
    have hred : processUl base_url c =
        (if strStartsWith cls0 "pure" = true then none
         else if (collectListings base_url c.anchors).length > 0 then
           some { doc_type := docTypeOfClass cls0,
                  docs := collectListings base_url c.anchors }
         else none) := by
      simp only [processUl, hcl]
    rw [hred]
    by_cases h2 : strStartsWith cls0 "pure"
    · simp [h2]
    · by_cases h3 : collectListings base_url c.anchors = []
      · simp [h2, h3]
      · have h3l : (collectListings base_url c.anchors).length > 0 :=
          List.length_pos.mpr h3
        rw [if_neg (by simp [h2]), if_pos h3l]
        constructor
        · intro hg
          exact ⟨cls0, rest, rfl, by simp [h2], h3, (Option.some_inj.mp hg).symm⟩
        · rintro ⟨cls0', rest', hcr, h2', h3', hg⟩
          obtain ⟨rfl, rfl⟩ : cls0 = cls0' ∧ rest = rest' := by
            simpa using hcr
          rw [hg]

/-- A produced group's entries are non-empty. -/
theorem processUl_docs_ne_nil (base_url : String) (c : UlNode) (g : DocTypeListing)
    (h : processUl base_url c = some g) : g.docs ≠ [] := by
  obtain ⟨cls0, rest, hcl, h2, h3, hg⟩ := (processUl_eq_some_iff base_url c g).mp h
  rw [hg]
  simpa using h3

/-- The `extend` loop over blocks is flattening in block order. -/
theorem foldl_extend_eq_flatten (l : List DocTypeListing) (acc : List DocListing) :
    l.foldl (fun a block => a ++ block.docs) acc = acc ++ (l.map DocTypeListing.docs).flatten := by
  induction l generalizing acc with
  | nil => simp
  | cons b bs ih => simp [ih, List.append_assoc]

/-! ## Claim theorems -/

/-- C1: For every index and every query, the search returns the first entry
whose name is exactly equal to the query; only if no entry's name equals the
query does it return the first entry whose name ends with the query; if
neither pass matches it returns `none` (NotFound). In particular an exact
match anywhere in the index outranks a suffix match occurring earlier. -/
theorem c1_search_precedence (s : DocState) (target : String) :
    search_doc_listings s target =
      (s.available_docs.find? fun d => d.name == target).orElse
        (fun _ => s.available_docs.find? fun d => strEndsWith d.name target) ∧
    (search_doc_listings s target = none ↔
      ∀ d ∈ s.available_docs, d.name ≠ target ∧ strEndsWith d.name target = false) ∧
    (∀ d ∈ s.available_docs, d.name = target →
      ∃ e, search_doc_listings s target = some e ∧ e.name = target) := by
  refine ⟨search_eq_orElse s target, ?_, ?_⟩
  · rw [search_eq_orElse]
    cases hf : s.available_docs.find? fun d => d.name == target with
    | some d =>
      have hd : d.name = target := by simpa using List.find?_some hf
      have hmem : d ∈ s.available_docs := List.mem_of_find?_eq_some hf
      constructor
      · intro h
        simp [Option.orElse] at h
      · intro h
        exact absurd hd (h d hmem).1
    | none =>
      have hall := List.find?_eq_none.mp hf
      simp only [Option.orElse, List.find?_eq_none]
      constructor
      · intro h d hdm
        exact ⟨by simpa using hall d hdm, by simpa using h d hdm⟩
      · intro h d hdm
        simpa using (h d hdm).2
  · intro d hdm hname
    rw [search_eq_orElse]
    have hs : (s.available_docs.find? fun x => x.name == target).isSome := by
      rw [List.find?_isSome]
      exact ⟨d, hdm, by simp [hname]⟩
    obtain ⟨e, he⟩ := Option.isSome_iff_exists.mp hs
    refine ⟨e, ?_, by simpa using List.find?_some he⟩
    rw [he]
    rfl

/-- Witness for C1: at a concrete index the search equals the two-scan
composite stated by the theorem. -/
theorem c1_search_precedence_witness :
    search_doc_listings ⟨⟨.All ⟨[]⟩, []⟩, [⟨"BarFoo", "u0"⟩, ⟨"Foo", "u1"⟩]⟩ "Foo" =
      ((DocState.mk ⟨.All ⟨[]⟩, []⟩
          [⟨"BarFoo", "u0"⟩, ⟨"Foo", "u1"⟩]).available_docs.find?
            fun d => d.name == "Foo").orElse
        (fun _ =>
          (DocState.mk ⟨.All ⟨[]⟩, []⟩
            [⟨"BarFoo", "u0"⟩, ⟨"Foo", "u1"⟩]).available_docs.find?
              fun d => strEndsWith d.name "Foo") :=
  (c1_search_precedence ⟨⟨.All ⟨[]⟩, []⟩, [⟨"BarFoo", "u0"⟩, ⟨"Foo", "u1"⟩]⟩ "Foo").1

/-- C3: Both spec examples of URL resolution hold on the embedded resolver:
URL-join semantics for a base that parses as an absolute URL, and literal
`all.html` substring substitution for a local filesystem base. -/
theorem c3_url_resolution_examples :
    resolveUrl "https://docs.rs/foo/1.2.3/foo/" "struct.Bar.html"
        = some "https://docs.rs/foo/1.2.3/foo/struct.Bar.html" ∧
    resolveUrl "/x/target/doc/foo/all.html" "struct.Bar.html"
        = some "/x/target/doc/foo/struct.Bar.html" := by
  decide

/-- C4: For every input document, no group in the extractor's output has an
empty entry sequence. -/
theorem c4_no_empty_groups (base_url : String) (uls : List UlNode)
    (gs : List DocTypeListing)
    (hgen : gen_doc_listings (.All ⟨uls⟩) base_url = .ok gs) :
    ∀ g ∈ gs, g.docs ≠ [] := by
  have hgs : genAll base_url uls = gs := by
    simpa [gen_doc_listings] using hgen
  intro g hg
  rw [← hgs, genAll_eq_filterMap] at hg
  obtain ⟨c, hc, hp⟩ := List.mem_filterMap.mp hg
  exact processUl_docs_ne_nil base_url c g hp

/-- Witness for C4: a concrete document producing one group, whose entry
sequence is non-empty. -/
theorem c4_no_empty_groups_witness :
    (DocTypeListing.mk .Other
        [⟨"x", "https://docs.rs/foo/1.2.3/foo/struct.X.html"⟩]).docs ≠ [] :=
  c4_no_empty_groups "https://docs.rs/foo/1.2.3/foo/"
    [⟨some "widgets", [⟨"x", some "struct.X.html"⟩]⟩]
    [⟨.Other, [⟨"x", "https://docs.rs/foo/1.2.3/foo/struct.X.html"⟩]⟩]
    rfl
    ⟨.Other, [⟨"x", "https://docs.rs/foo/1.2.3/foo/struct.X.html"⟩]⟩
    (by decide)

/-- C8: Once the base parses as an absolute URL, resolving any link target
reaches the join branch and yields its result: the reference is never
dropped, and — join being total under the standard URL-join rules the model
takes from the spec — the unwrapped join never fails. -/
theorem c8_join_never_fails (base u : String) (b : Url)
    (h : urlParseL base.data = .ok b) :
    resolveUrl base u = some (String.mk (urlJoin b u.data)) := by
  simp [resolveUrl, h]

/-- Witness for C8 at the spec's remote base and a fresh relative link. -/
theorem c8_join_never_fails_witness :
    resolveUrl "https://docs.rs/foo/1.2.3/foo/" "struct.Baz.html"
      = some (String.mk (urlJoin
          ⟨"https".data, "docs.rs".data, "/foo/1.2.3/foo/".data⟩
          "struct.Baz.html".data)) :=
  c8_join_never_fails "https://docs.rs/foo/1.2.3/foo/" "struct.Baz.html"
    ⟨"https".data, "docs.rs".data, "/foo/1.2.3/foo/".data⟩ rfl

/-- C9: On a non-empty index the empty query never yields NotFound: the
suffix pass accepts every name, so the result is the first entry with an
empty name, or else the first entry of the index. -/
theorem c9_empty_query (s : DocState) (h : s.available_docs ≠ []) :
    search_doc_listings s "" ≠ none ∧
    search_doc_listings s "" =
      (s.available_docs.find? fun d => d.name == "").orElse
        (fun _ => s.available_docs.head?) := by
  have hsuf : (s.available_docs.find? fun d => strEndsWith d.name "")
      = s.available_docs.head? := by
    cases hl : s.available_docs with
    | nil => rfl
    | cons a l => simp [List.find?_cons, strEndsWith_empty]
  have heq := search_eq_orElse s ""
  rw [hsuf] at heq
  refine ⟨?_, heq⟩
  rw [heq]
  cases hf : s.available_docs.find? fun d => d.name == "" with
  | some d => simp [Option.orElse]
  | none =>
    cases hl : s.available_docs with
    | nil => exact absurd hl h
    | cons a l => simp [Option.orElse]

/-- Witness for C9: a concrete one-entry index searched with the empty
query does not return NotFound. -/
theorem c9_empty_query_witness :
    search_doc_listings ⟨⟨.All ⟨[]⟩, []⟩, [⟨"BarFoo", "u0"⟩]⟩ "" ≠ none :=
  (c9_empty_query ⟨⟨.All ⟨[]⟩, []⟩, [⟨"BarFoo", "u0"⟩]⟩ (by decide)).1

/-- C10: The navigation filter is a prefix test, not a lookup of known widget
names: any container whose first class token starts with the four characters
`pure` contributes no group — including the hypothetical documentation class
`purefunctions`, silently dropped even with a resolvable entry inside. -/
theorem c10_pure_prefix_filter (base_url : String) (c : UlNode) (s : String)
    (hattr : c.classAttr = some s)
    (hpure : strStartsWith ((splitSpace s).headD "") "pure" = true) :
    processUl base_url c = none ∧
    genAll "https://docs.rs/foo/1.2.3/foo/"
      [⟨some "purefunctions", [⟨"X", some "struct.X.html"⟩]⟩] = [] := by
  refine ⟨?_, by decide⟩
  have hcl : classesOf c = splitSpace s := by simp [classesOf, hattr]
  cases hsp : splitSpace s with
  | nil => exact absurd hsp (splitSpace_ne_nil s)
  | cons cls0 rest =>
    rw [hsp] at hcl hpure
    simp only [List.headD_cons] at hpure
    simp [processUl, hcl, hpure]

/-- Witness for C10: a concrete menu container is dropped, as is the
concrete `purefunctions` container. -/
theorem c10_pure_prefix_filter_witness :
    processUl "https://docs.rs/foo/1.2.3/foo/"
      ⟨some "pure-menu pure-menu-list", [⟨"X", some "struct.X.html"⟩]⟩ = none ∧
    genAll "https://docs.rs/foo/1.2.3/foo/"
      [⟨some "purefunctions", [⟨"X", some "struct.X.html"⟩]⟩] = [] :=
  c10_pure_prefix_filter "https://docs.rs/foo/1.2.3/foo/"
    ⟨some "pure-menu pure-menu-list", [⟨"X", some "struct.X.html"⟩]⟩
    "pure-menu pure-menu-list" rfl (by decide)

/-- C2: Every kept container's first class token is classified by the fixed
case-sensitive table; every token outside the table maps to `Other`, so a
container is never dropped for carrying an unrecognized token; classless
containers and containers whose first class token carries the
navigation/menu marker (the `pure` prefix) never appear in the output, and
every output group originates from some input container. -/
theorem c2_classification :
    (docTypeOfClass "modules" = .Module ∧ docTypeOfClass "structs" = .Struct ∧
     docTypeOfClass "typedefs" = .«Type» ∧ docTypeOfClass "traits" = .Trait ∧
     docTypeOfClass "enums" = .Enum ∧ docTypeOfClass "functions" = .Function ∧
     docTypeOfClass "constants" = .Constant) ∧
    (∀ s : String,
      s ∉ (["modules", "structs", "typedefs", "traits", "enums", "functions",
            "constants"] : List String) →
      docTypeOfClass s = .Other) ∧
    (∀ base_url c, c.classAttr = none → processUl base_url c = none) ∧
    (∀ base_url c cls0 rest, classesOf c = cls0 :: rest →
      strStartsWith cls0 "pure" = true → processUl base_url c = none) ∧
    (∀ base_url c cls0 rest, classesOf c = cls0 :: rest →
      strStartsWith cls0 "pure" = false →
      (processUl base_url c = none ↔ collectListings base_url c.anchors = []) ∧
      ∀ g, processUl base_url c = some g → g.doc_type = docTypeOfClass cls0) ∧
    (∀ base_url uls g, g ∈ genAll base_url uls →
      ∃ c ∈ uls, processUl base_url c = some g) := by
  refine ⟨by decide, ?_, ?_, ?_, ?_, ?_⟩
  · intro s hs
    simp only [List.mem_cons, List.not_mem_nil, or_false, not_or] at hs
    obtain ⟨h1, h2, h3, h4, h5, h6, h7⟩ := hs
    simp [docTypeOfClass, h1, h2, h3, h4, h5, h6, h7]
  · intro base_url c hnone
    simp [processUl, classesOf, hnone]
  · intro base_url c cls0 rest hcl hp
    simp [processUl, hcl, hp]
  · intro base_url c cls0 rest hcl hp
    constructor
    · constructor
      · intro hnone
        by_contra hne
        have h3l := List.length_pos.mpr hne
        simp [processUl, hcl, hp, h3l] at hnone
      · intro hnil
        simp [processUl, hcl, hp, hnil]
    · intro g hg
      obtain ⟨cls0', rest', hcl', hp', hne', hgeq⟩ :=
        (processUl_eq_some_iff base_url c g).mp hg
      rw [hcl] at hcl'
      obtain ⟨rfl, -⟩ : cls0 = cls0' ∧ rest = rest' := by simpa using hcl'
      rw [hgeq]
  · intro base_url uls g hg
    rw [genAll_eq_filterMap] at hg
    simpa using List.mem_filterMap.mp hg

/-- Witness for C2: the unrecognized token `widgets` is classified `Other`
rather than dropped. -/
theorem c2_classification_witness :
    docTypeOfClass "widgets" = DocType.Other :=
  c2_classification.2.1 "widgets" (by decide)

/-- C7: Entries within each output group appear in the same relative order
as their source anchors and groups in the same relative order as their
source containers (both loops are order-preserving filter-maps), and the
flat search index concatenates all groups' entries in group order then entry
order, without deduplication. -/
theorem c7_order_preservation (base_url : String) (uls : List UlNode)
    (page : DocPage) :
    genAll base_url uls = uls.filterMap (processUl base_url) ∧
    (∀ c g, processUl base_url c = some g →
      g.docs = c.anchors.filterMap (mkListing base_url)) ∧
    (docStateFrom page).available_docs =
      (page.doc_blocks.map DocTypeListing.docs).flatten := by
  refine ⟨genAll_eq_filterMap base_url uls, ?_, ?_⟩
  · intro c g hg
    obtain ⟨cls0, rest, hcl, hp, hne, hgeq⟩ :=
      (processUl_eq_some_iff base_url c g).mp hg
    rw [hgeq]
    exact collectListings_eq_filterMap base_url c.anchors
  · simpa [docStateFrom] using foldl_extend_eq_flatten page.doc_blocks []

/-- Witness for C7 at a concrete two-group page: the flat index equals the
flattened group entries. -/
theorem c7_order_preservation_witness :
    (docStateFrom ⟨.All ⟨[]⟩,
        [⟨.Module, [⟨"a", "u1"⟩]⟩,
         ⟨.Struct, [⟨"b", "u2"⟩, ⟨"c", "u3"⟩]⟩]⟩).available_docs =
      (([⟨.Module, [⟨"a", "u1"⟩]⟩,
         ⟨.Struct, [⟨"b", "u2"⟩, ⟨"c", "u3"⟩]⟩] :
          List DocTypeListing).map DocTypeListing.docs).flatten :=
  (c7_order_preservation "" []
    ⟨.All ⟨[]⟩,
      [⟨.Module, [⟨"a", "u1"⟩]⟩,
       ⟨.Struct, [⟨"b", "u2"⟩, ⟨"c", "u3"⟩]⟩]⟩).2.2

/-- C5 counterexample: a fetch whose two requests succeed in transport and
whose second response carries the success status 204 with a readable body
returns `DoesNotExist` (NotFound), not the body that the claim promises for
every 2xx status — the code tests for status exactly 200. -/
theorem c5_counterexample :
    (200 ≤ 204 ∧ 204 < 300) ∧
    fetch_live_html
      ⟨"/w", fun _ => .openErr,
        ⟨some "https://docs.rs/foo/1.2.3/foo/", some ⟨204, some "<html></html>"⟩⟩,
        fun _ => ⟨[]⟩⟩ "foo"
      = .error .DoesNotExist :=
  ⟨⟨by decide, by decide⟩, rfl⟩

/-- C5 (amended): in network mode, a transport failure on either request or
a body-read failure yields `LoadFailure`; a response to the second request
with any status other than exactly 200 — including 2xx statuses other than
200 — yields `DoesNotExist` (NotFound); a response with status 200 and a
readable body yields the parsed body paired with the resolved index
address. -/
theorem c5_fetch_live_classification (env : FetchEnv) (cn : String) :
    (env.net.firstReq = none → fetch_live_html env cn = .error .LoadFailure) ∧
    (∀ resolved, env.net.firstReq = some resolved →
      (env.net.secondReq = none → fetch_live_html env cn = .error .LoadFailure) ∧
      (∀ r, env.net.secondReq = some r →
        (r.status ≠ 200 → fetch_live_html env cn = .error .DoesNotExist) ∧
        (r.status = 200 →
          (r.body = none → fetch_live_html env cn = .error .LoadFailure) ∧
          (∀ b, r.body = some b →
            fetch_live_html env cn =
              .ok (.All (env.parseDocument b), resolved ++ "all.html"))))) := by
  constructor
  · intro h1
    simp [fetch_live_html, h1]
  · intro resolved h1
    constructor
    · intro h2
      simp [fetch_live_html, h1, h2]
    · intro r h2
      constructor
      · intro hs
        simp [fetch_live_html, h1, h2, hs]
      · intro hs
        constructor
        · intro hb
          simp [fetch_live_html, h1, h2, hs, hb]
        · intro b hb
          simp [fetch_live_html, h1, h2, hs, hb]

/-- Witness for C5 (amended) at a concrete status-200 outcome with readable
body. -/
theorem c5_fetch_live_classification_witness :
    fetch_live_html
      ⟨"/w", fun _ => .openErr,
        ⟨some "https://docs.rs/foo/1.2.3/foo/", some ⟨200, some "<html></html>"⟩⟩,
        fun _ => ⟨[]⟩⟩ "foo"
      = .ok (.All ⟨[]⟩, "https://docs.rs/foo/1.2.3/foo/" ++ "all.html") :=
  ((((c5_fetch_live_classification
        ⟨"/w", fun _ => .openErr,
          ⟨some "https://docs.rs/foo/1.2.3/foo/", some ⟨200, some "<html></html>"⟩⟩,
          fun _ => ⟨[]⟩⟩ "foo").2
      "https://docs.rs/foo/1.2.3/foo/" rfl).2
      ⟨200, some "<html></html>"⟩ rfl).2 rfl).2 "<html></html>" rfl

/-- C6: In local mode, a missing cache file (open failure) at the
conventional path yields `DoesNotExist` (NotFound); a file that opens but
fails to read or decode yields `LoadFailure`; otherwise the result is the
parsed file contents paired with the path used as the base location. -/
theorem c6_local_fetch_classification (env : FetchEnv) (cn : String) :
    (env.fs (env.cwd ++ "/target/doc/" ++ cn ++ "/all.html") = .openErr →
      fetch_html env cn false = .error .DoesNotExist) ∧
    (env.fs (env.cwd ++ "/target/doc/" ++ cn ++ "/all.html") = .readErr →
      fetch_html env cn false = .error .LoadFailure) ∧
    (∀ content,
      env.fs (env.cwd ++ "/target/doc/" ++ cn ++ "/all.html") = .ok content →
      fetch_html env cn false =
        .ok (.All (env.parseDocument content),
          env.cwd ++ "/target/doc/" ++ cn ++ "/all.html")) := by
  refine ⟨?_, ?_, ?_⟩
  · intro h
    simp [fetch_html, h]
  · intro h
    simp [fetch_html, h]
  · intro content h
    simp [fetch_html, h]

/-- Witness for C6 at a concrete readable cache file. -/
theorem c6_local_fetch_classification_witness :
    fetch_html
      ⟨"/w", fun _ => .ok "<html></html>", ⟨none, none⟩, fun _ => ⟨[]⟩⟩
      "foo" false
      = .ok (.All ⟨[]⟩, "/w" ++ "/target/doc/" ++ "foo" ++ "/all.html") :=
  (c6_local_fetch_classification
    ⟨"/w", fun _ => .ok "<html></html>", ⟨none, none⟩, fun _ => ⟨[]⟩⟩
    "foo").2.2 "<html></html>" rfl
